import Mathlib

set_option maxRecDepth 8000

/-!
Verification of the 4-year-window BTC analysis scripts.

Shallow embedding of the core algorithms of the repository:
 - `4-year-return-analysis.py`  (sliding-window fixed-horizon return scanner)
 - `btc_loan_analysis.py`       (amortization, periodic purchase simulation,
                                 effective-rate resolver)
 - `auto_loan_analysis.py`      (periodic purchase simulation with a
                                 payment-day remap)

Timestamps: pandas `Timestamp` values are instants on a linear time axis.
We model a timestamp as a calendar record (year, month, day, minute-of-day)
together with its encoding `DT.toMin` into minutes of the proleptic
Gregorian calendar; comparisons and differences of timestamps in the
source are comparisons and differences of `DT.toMin` values, which for
valid calendar dates coincide with the chronological order pandas uses.

Numbers: Python floats are modelled as exact rationals; the effective-rate
resolver, which uses non-integer powers, is modelled over the reals.
Fallible operations (Python raising `ZeroDivisionError`, `ValueError` or
`IndexError`) are modelled with `Option` / `Except`.
-/

/-- Calendar timestamp: year, month (1-12), day (1-31), minute of day. -/
structure DT where
  y : ℕ
  m : ℕ
  d : ℕ
  t : ℕ
deriving DecidableEq

/-- Gregorian leap-year test, as used by the `calendar` module and pandas. -/
def isLeap (y : ℕ) : Bool :=
  (y % 4 == 0 && y % 100 != 0) || y % 400 == 0

/-- Number of days of month `m` of year `y` (`calendar.monthrange(y, m)[1]`). -/
def daysInMonth (y : ℕ) (m : ℕ) : ℕ :=
  if m = 2 then (if isLeap y then 29 else 28)
  else if m = 4 ∨ m = 6 ∨ m = 9 ∨ m = 11 then 30
  else 31

/-- Days in all months of year `y` strictly before month `m`. -/
def daysBeforeMonth (y : ℕ) (m : ℕ) : ℕ :=
  (((List.range (m - 1)).map (fun j => daysInMonth y (j + 1))).sum)

/-- Days in all years strictly before year `y` of the proleptic Gregorian
calendar (year 0 counts as a leap year). -/
def daysBeforeYear (y : ℕ) : ℕ :=
  365 * y + (y + 3) / 4 - (y + 99) / 100 + (y + 399) / 400

/-- Encoding of a timestamp as a minute count.  For valid calendar dates
this is exactly the linear instant pandas `Timestamp` arithmetic uses, so
both the chronological order and timedeltas of the source are captured. -/
def DT.toMin (dt : DT) : ℕ :=
  (daysBeforeYear dt.y + daysBeforeMonth dt.y dt.m + (dt.d - 1)) * 1440 + dt.t

/-- Dummy timestamp used as an (never observed) `getD` default. -/
def dumDT : DT := ⟨0, 1, 1, 0⟩

/-- Dummy price sample used as an (never observed) `getD` default. -/
def dumQ : DT × ℚ := (dumDT, 0)

/-- `pd.DateOffset(years=n)` added to a timestamp: same month, day clamped
to the target month's length (Feb 29 degrades to Feb 28), time preserved. -/
def DT.addYears (dt : DT) (n : ℕ) : DT :=
  let y := dt.y + n
  ⟨y, dt.m, min dt.d (daysInMonth y dt.m), dt.t⟩

/-- Linear month index of a timestamp's (year, month) pair. -/
def monthIdxOf (dt : DT) : ℕ := dt.y * 12 + (dt.m - 1)

/-- `pd.DateOffset(months=n)` subtracted from a timestamp: month index moves
back by `n`, day clamped to the target month's length, time preserved. -/
def DT.subMonths (dt : DT) (n : ℕ) : DT :=
  let k := monthIdxOf dt - n
  ⟨k / 12, k % 12 + 1, min dt.d (daysInMonth (k / 12) (k % 12 + 1)), dt.t⟩

/-- `pd.date_range(start, periods=n, freq=ME)`: the month-ends of the `n`
consecutive months beginning with `start`'s own month, each at `start`'s
time of day.  (pandas keeps an on-offset start - a day that is already the
last of its month - as the first element, which this formula also yields.) -/
def monthEnds (start : DT) (n : ℕ) : List DT :=
  (List.range n).map (fun k =>
    let i := monthIdxOf start + k
    ⟨i / 12, i % 12 + 1, daysInMonth (i / 12) (i % 12 + 1), start.t⟩)

/-- `date.replace(day=min(payment_day, calendar.monthrange(date.year, date.month)[1]))`. -/
def clampToPaymentDay (dt : DT) (paymentDay : ℕ) : DT :=
  ⟨dt.y, dt.m, min paymentDay (daysInMonth dt.y dt.m), dt.t⟩

/-! ### Sliding-window return scanner (`4-year-return-analysis.py`)

The scanner walks a price series `s : List (DT × ℚ)` of (timestamp,
avg_price) samples that the script has already sorted chronologically.
For each start index `i` it computes the instant 4 calendar years later,
finds the first index at or after that instant with `searchsorted`
(left side - first index whose timestamp is greater than or equal to the
target), records the interval, and breaks out of the loop as soon as the
search runs off the end of the data. -/

/-- One recorded interval: start date, end date, percentage return
(the script keeps these in three parallel lists). -/
structure ScanEntry where
  sd : DT
  ed : DT
  ret : ℚ
deriving DecidableEq

/-- Dummy entry used as an (never observed) `getD` default. -/
def dumE : ScanEntry := ⟨dumDT, dumDT, 0⟩

/-- `df['date'].searchsorted(target)`: for a chronologically sorted series,
the first index whose timestamp is at or after `target` (the list length
if there is none).  `searchsorted` is a binary search; on sorted data it
agrees with this linear characterization, which is what the theorems
below assume via their sortedness hypothesis. -/
def findEnd (s : List (DT × ℚ)) (target : DT) : ℕ :=
  s.findIdx (fun q => decide (target.toMin ≤ q.1.toMin))

/-- `get_exact_4_year_later_date`, generalized over the horizon in years;
the script instantiates the horizon to 4. -/
def targetAt (s : List (DT × ℚ)) (hY : ℕ) (i : ℕ) : DT :=
  ((s.getD i dumQ).1).addYears hY

/-- Loop guard of the scan: the searched end index is inside the data. -/
def keepIdx (s : List (DT × ℚ)) (hY : ℕ) (i : ℕ) : Bool :=
  findEnd s (targetAt s hY i) < s.length

/-- The interval recorded for start index `i` and end index `j`. -/
def mkEntry (s : List (DT × ℚ)) (i j : ℕ) : ScanEntry :=
  ⟨(s.getD i dumQ).1, (s.getD j dumQ).1,
    ((s.getD j dumQ).2 - (s.getD i dumQ).2) / (s.getD i dumQ).2 * 100⟩

/-- The scan loop with horizon `hY` years: iterate start indices in order,
recording intervals, and stop at the first index whose target exceeds the
last timestamp (the `break`). -/
def scanH (s : List (DT × ℚ)) (hY : ℕ) : List ScanEntry :=
  ((List.range s.length).takeWhile (keepIdx s hY)).map
    (fun i => mkEntry s i (findEnd s (targetAt s hY i)))

/-- The scan of `analyze_btc_returns`, horizon fixed to 4 years as in the
script. -/
def scan4 (s : List (DT × ℚ)) : List ScanEntry := scanH s 4

/-- First index of the minimum of a list (`Series.idxmin` / `np.argmin`:
ties resolve to the first, i.e. earliest, occurrence). -/
def firstMinIdx {α : Type} [LinearOrder α] (l : List α) : ℕ :=
  match l.min? with
  | some m => l.findIdx (fun x => decide (x = m))
  | none => 0

/-- First index of the maximum of a list (`np.argmax`). -/
def firstMaxIdx {α : Type} [LinearOrder α] (l : List α) : ℕ :=
  match l.max? with
  | some m => l.findIdx (fun x => decide (x = m))
  | none => 0

/-- One side (best or worst interval) of the scan report. -/
structure ReportSide where
  ret : ℚ
  sd : DT
  ed : DT
  sp : ℚ
  ep : ℚ
deriving DecidableEq

/-- The aggregate result of `analyze_btc_returns` (the volume columns and
the mean / median / standard-deviation summary statistics, which are
computed from the same `all_returns` list and are not touched by any
claim, are omitted). -/
structure ScanReport where
  highest : ReportSide
  lowest : ReportSide
  total_intervals_analyzed : ℕ
deriving DecidableEq

/-- The reporting part of `analyze_btc_returns`: take the argmax / argmin
of the recorded returns, then re-derive the reported prices by indexing
the series at the start index (loop position) and at
`searchsorted(recorded end date)`.  `np.argmax` of an empty list raises
`ValueError`, modelled by `none`. -/
def analyze_btc_returns (s : List (DT × ℚ)) : Option ScanReport :=
  let entries := scan4 s
  if entries = [] then none
  else
    let maxIdx := firstMaxIdx (entries.map (fun e => e.ret))
    let minIdx := firstMinIdx (entries.map (fun e => e.ret))
    let eMax := entries.getD maxIdx dumE
    let eMin := entries.getD minIdx dumE
    some
      { highest := ⟨eMax.ret, eMax.sd, eMax.ed, (s.getD maxIdx dumQ).2,
          (s.getD (findEnd s eMax.ed) dumQ).2⟩
        lowest := ⟨eMin.ret, eMin.sd, eMin.ed, (s.getD minIdx dumQ).2,
          (s.getD (findEnd s eMin.ed) dumQ).2⟩
        total_intervals_analyzed := entries.length }

/-! ### Amortization and mid-price construction -/

/-- Output record of `calculate_loan_metrics` in `btc_loan_analysis.py`. -/
structure LoanMetrics where
  monthly_payment : ℚ
  btc_monthly_amount : ℚ
  total_payments : ℚ
deriving DecidableEq

/-- `calculate_loan_metrics(principal, apr, term_months, btc_percentage)` of
`btc_loan_analysis.py` (the identical formula is inlined at lines 124-125 of
`auto_loan_analysis.py`).  The monthly payment is the bare amortization
formula with no zero-rate fallback: when the denominator
`(1+r)^term - 1` is zero (exactly the `apr = 0` case) the Python float
division raises `ZeroDivisionError`, modelled by `none`. -/
def calculate_loan_metrics (principal apr : ℚ) (term_months : ℕ)
    (btc_percentage : ℚ) : Option LoanMetrics :=
  let monthly_rate := apr / 12 / 100
  let den := (1 + monthly_rate) ^ term_months - 1
  if den = 0 then none
  else
    let monthly_payment :=
      principal * (monthly_rate * (1 + monthly_rate) ^ term_months) / den
    some ⟨monthly_payment, monthly_payment * (btc_percentage / 100),
      monthly_payment * term_months⟩

/-- Mid price as constructed in `4-year-return-analysis.py` line 30:
`(df['high'] + df['low']) / 2`. -/
def avg_price_return_analysis (high low : ℚ) : ℚ := (high + low) / 2

/-- Mid price as constructed in `btc_loan_analysis.py` line 131:
`(btc_data['high'] + btc_data['low']) / 2`. -/
def avg_price_btc_loan (high low : ℚ) : ℚ := (high + low) / 2

/-- Mid price as constructed in `auto_loan_analysis.py` line 189:
`pd.to_numeric(btc_data['high'], ...) + pd.to_numeric(btc_data['low'], ...) / 2`
- there are no parentheses around the sum, so the division binds only to
`low`. -/
def avg_price_auto_loan (high low : ℚ) : ℚ := high + low / 2

/-! ### Effective-rate resolver (`calculate_effective_rates`)

Python evaluates `x ** e` on floats for a non-integer exponent
`12 / term_months`; this is real-number exponentiation, so this one
component is modelled over `ℝ` (with `Real.rpow`).  The literal exponent
12 in the APY compounding step is an integer power.  (With
`term_months = 0` Python would raise on `12 / term_months`; Lean's
division-by-zero convention makes the exponent 0 there instead.  The
claims only concern positive terms.) -/

/-- Tag distinguishing the two regimes of `calculate_effective_rates`
(the strings "cost" and "return" in the source). -/
inductive RateType where
  | cost
  | investmentReturn
deriving DecidableEq

/-- `calculate_effective_rates(total_interest, net_bitcoin_position,
principal, term_months)` of `btc_loan_analysis.py`, returning
(effective_apr, effective_apy, rate_type) resp.
(annualized_return, total_return, rate_type). -/
noncomputable def calculate_effective_rates
    (total_interest net_bitcoin_position principal : ℝ) (term_months : ℕ) :
    ℝ × ℝ × RateType :=
  let net_interest := total_interest - net_bitcoin_position
  if 0 < net_interest then
    let effective_annual_rate :=
      ((net_interest + principal) / principal) ^ ((12 : ℝ) / term_months) - 1
    (effective_annual_rate * 100,
      ((1 + effective_annual_rate / 12) ^ (12 : ℕ) - 1) * 100,
      RateType.cost)
  else
    let total_gain := |net_interest|
    let total_capital_deployed := principal + total_interest + net_bitcoin_position
    let annual_return :=
      (1 + total_gain / total_capital_deployed) ^ ((12 : ℝ) / term_months) - 1
    (annual_return * 100, total_gain / total_capital_deployed * 100,
      RateType.investmentReturn)

/-- Modelled from the spec's EffectiveRateResolver contract (spec section
4.6), word for word: `netInterest = totalInterest - netAssetPosition`;
COST regime when `netInterest > 0` with
`rate = ((netInterest+principal)/principal)^(12/termMonths) - 1` expressed
as an annualized percentage and companion compounding figure
`(1+rate/12)^12 - 1` (on the same percentage scale); RETURN regime
otherwise with `gain = -netInterest`,
`capitalDeployed = principal + totalInterest + netAssetPosition`,
`annualReturn = (1+gain/capitalDeployed)^(12/termMonths) - 1` and simple
total-return percentage `gain/capitalDeployed x 100`. -/
noncomputable def effective_rate_resolver_spec
    (totalInterest netAssetPosition principal : ℝ) (termMonths : ℕ) :
    ℝ × ℝ × RateType :=
  let netInterest := totalInterest - netAssetPosition
  if 0 < netInterest then
    let rate :=
      ((netInterest + principal) / principal) ^ ((12 : ℝ) / termMonths) - 1
    (rate * 100, ((1 + rate / 12) ^ (12 : ℕ) - 1) * 100, RateType.cost)
  else
    let gain := -netInterest
    let capitalDeployed := principal + totalInterest + netAssetPosition
    ((( 1 + gain / capitalDeployed) ^ ((12 : ℝ) / termMonths) - 1) * 100,
      gain / capitalDeployed * 100, RateType.investmentReturn)

/-! ### Periodic-purchase simulators

`analyze_btc_enhanced_loan` (`btc_loan_analysis.py`) and
`analyze_auto_loan` (`auto_loan_analysis.py`) share the same skeleton:
compute the amortized payment and the monthly BTC allocation, set
`start_date = btc_data['date'].max() - DateOffset(months=term)`, generate
`term` month-end purchase dates from `start_date` (the auto variant then
remaps each date's day to `min(payment_day, monthrange(...)[1])`), filter
the series to `date >= start_date`, resolve each purchase date to the
price sample of the FILTERED data with the minimum absolute timestamp
difference (`idxmin`: first, i.e. earliest, occurrence on ties), and
accumulate `quantity += allocation/price`, `invested += allocation`.
Neither function checks `start_date` against the earliest timestamp, and
neither guards the `allocation/price` division.  The btc variant guards
the roi division with `if total_btc_investment > 0 else 0`; the auto
variant divides unconditionally. -/

/-- Runtime failures of the Python code: an unguarded float division by
zero (`ZeroDivisionError`), or indexing / reducing empty data
(`ValueError` from `idxmin`, `IndexError` from `iloc[-1]`).  There is no
InsufficientHistory, InvalidPrice or EmptySeries handling anywhere in the
source. -/
inductive Err where
  | divByZero
  | emptyData
deriving DecidableEq

/-- Result fields of the simulators that the claims refer to (the echoed
input parameters, date fields and interest summaries of the Python result
dicts are omitted). -/
structure SimResult where
  btc_accumulated : ℚ
  total_btc_investment : ℚ
  final_btc_value : ℚ
  net_position : ℚ
  roi_percentage : ℚ
deriving DecidableEq

/-- `period_data.loc[(period_data['date'] - purchase_date).abs().idxmin(),
'avg_price']`: the price of the sample of `period` whose timestamp has the
minimum absolute difference (in minutes) from `p`, the earliest such
sample on ties.  (`idxmin` returns the first row label attaining the
minimum, and `period_data` preserves the chronological sort order.) -/
def resolvedPrice (period : List (DT × ℚ)) (p : DT) : ℚ :=
  (period.getD
    (firstMinIdx (period.map (fun q => Nat.dist q.1.toMin p.toMin)))
    dumQ).2

/-- Purchase loop: for each purchase date, resolve a price, reject nothing,
and divide.  A resolved price of zero makes the Python float division
raise, modelled as `Err.divByZero`.  Returns (btc_accumulated,
total_btc_investment). -/
def buyLoop (period : List (DT × ℚ)) (amount : ℚ) :
    List DT → ℚ → ℚ → Except Err (ℚ × ℚ)
  | [], acc, inv => .ok (acc, inv)
  | p :: rest, acc, inv =>
    let price := resolvedPrice period p
    if price = 0 then .error .divByZero
    else buyLoop period amount rest (acc + amount / price) (inv + amount)

/-- `btc_data['date'].max()` over the tail, seeded with the head sample. -/
def seriesMax (s : List (DT × ℚ)) (q0 : DT × ℚ) : DT × ℚ :=
  s.foldl (fun a b => if a.1.toMin < b.1.toMin then b else a) q0

/-- `start_date = btc_data['date'].max() - pd.DateOffset(months=term)`
(the dummy value is only taken on an empty series, where pandas `.max()`
yields NaT and the subsequent `date_range` raises). -/
def windowStartOf (s : List (DT × ℚ)) (term : ℕ) : DT :=
  match s with
  | [] => dumDT
  | q0 :: rest => ((seriesMax rest q0).1).subMonths term

/-- The filtered period `btc_data[btc_data['date'] >= start_date]`. -/
def periodOf (s : List (DT × ℚ)) (term : ℕ) : List (DT × ℚ) :=
  s.filter (fun q => decide ((windowStartOf s term).toMin ≤ q.1.toMin))

/-- The purchase dates of `analyze_auto_loan`: month-end dates from
`start_date`, each remapped to `min(payment_day, monthrange(...)[1])` of
its month. -/
def paymentDatesOf (s : List (DT × ℚ)) (term : ℕ) (payment_day : ℕ) :
    List DT :=
  (monthEnds (windowStartOf s term) term).map
    (fun dte => clampToPaymentDay dte payment_day)

/-- `analyze_btc_enhanced_loan(btc_data, loan_scenario)` of
`btc_loan_analysis.py` (the returned dict restricted to the simulation
fields; the effective-rate step consumes `net_position` downstream).
Purchases happen on the raw month-end dates, and the roi division is
guarded by `if total_btc_investment > 0 else 0`. -/
def analyze_btc_enhanced_loan (s : List (DT × ℚ)) (principal apr : ℚ)
    (term : ℕ) (btc_pct : ℚ) : Except Err SimResult :=
  match calculate_loan_metrics principal apr term btc_pct with
  | none => .error .divByZero
  | some lm =>
    let period := periodOf s term
    match period.getLast? with
    | none => .error .emptyData
    | some lastq =>
      match buyLoop period lm.btc_monthly_amount
          (monthEnds (windowStartOf s term) term) 0 0 with
      | .error e => .error e
      | .ok (acc, inv) =>
        let finalValue := acc * lastq.2
        let roi := if 0 < inv then (finalValue - inv) / inv * 100 else 0
        .ok ⟨acc, inv, finalValue, finalValue - inv, roi⟩

/-- `analyze_auto_loan(btc_data, loan_params)` of `auto_loan_analysis.py`:
amortization formula inlined (no zero-rate guard), purchase dates remapped
to the requested payment day, and the roi percentage divided by
`total_btc_investment` with no guard. -/
def analyze_auto_loan (s : List (DT × ℚ)) (principal apr : ℚ) (term : ℕ)
    (btc_pct : ℚ) (payment_day : ℕ) : Except Err SimResult :=
  let monthly_rate := apr / 12 / 100
  let den := (1 + monthly_rate) ^ term - 1
  if den = 0 then .error .divByZero
  else
    let monthly_payment :=
      principal * (monthly_rate * (1 + monthly_rate) ^ term) / den
    let btc_monthly_amount := monthly_payment * (btc_pct / 100)
    let period := periodOf s term
    match period.getLast? with
    | none => .error .emptyData
    | some lastq =>
      match buyLoop period btc_monthly_amount
          (paymentDatesOf s term payment_day) 0 0 with
      | .error e => .error e
      | .ok (acc, inv) =>
        let finalValue := acc * lastq.2
        if inv = 0 then .error .divByZero
        else .ok ⟨acc, inv, finalValue, finalValue - inv,
          (finalValue - inv) / inv * 100⟩

/-- Modelled from the spec: `PriceSeries.nearestPrice(t)` returns the mid
price of the sample of the WHOLE series whose timestamp is closest to `t`
by absolute difference, ties broken toward the earlier sample (spec
section 4.1).  The claim about purchase-price resolution is stated
against this contract; the simulators above actually search only the
filtered period. -/
def nearestPrice_spec (s : List (DT × ℚ)) (p : DT) : ℚ :=
  resolvedPrice s p

/-! ### Concrete inputs for witnesses and counterexamples -/

/-- Concrete two-sample series used by the C1 witness: one point on
2020-01-01 and one exactly four calendar years later. -/
def wSeries1 : List (DT × ℚ) := [(⟨2020, 1, 1, 0⟩, 100), (⟨2024, 1, 1, 0⟩, 200)]

/-- The single interval the scan records on `wSeries1`. -/
def wEntry1 : ScanEntry := ⟨⟨2020, 1, 1, 0⟩, ⟨2024, 1, 1, 0⟩, 100⟩

/-- The report `analyze_btc_returns` produces on `wSeries1`. -/
def wReport1 : ScanReport :=
  ⟨⟨100, ⟨2020, 1, 1, 0⟩, ⟨2024, 1, 1, 0⟩, 100, 200⟩,
   ⟨100, ⟨2020, 1, 1, 0⟩, ⟨2024, 1, 1, 0⟩, 100, 200⟩, 1⟩

/-- Boolean success test for `Except` results. -/
def exceptIsOk {ε α : Type} : Except ε α → Bool :=
  fun x => match x with
  | .ok _ => true
  | .error _ => false

/-- Concrete series whose window start (term 1) precedes its earliest
timestamp: samples on 2024-01-20 and 2024-02-15, window start
2024-01-15. -/
def wSeries2 : List (DT × ℚ) := [(⟨2024, 1, 20, 0⟩, 100), (⟨2024, 2, 15, 0⟩, 100)]

/-- Concrete series where the purchase date resolves to a zero price:
the filtered period (term 1, window start 2024-01-29) contains only the
second sample, whose price is 0. -/
def wSeries3 : List (DT × ℚ) := [(⟨2024, 1, 1, 0⟩, 100), (⟨2024, 2, 29, 0⟩, 0)]

/-- Concrete series where the whole-series nearest sample to the first
purchase date lies before the window start and is therefore excluded from
the search: a sample on 2027-12-14 23:00 (price 10) and one on
2028-01-15 (price 99); with term 1 the window starts 2027-12-15 and the
purchase date is 2027-12-01. -/
def wSeries4 : List (DT × ℚ) :=
  [(⟨2027, 12, 14, 1380⟩, 10), (⟨2028, 1, 15, 0⟩, 99)]

/-! ### Helper lemmas -/

/-- Characterization of `List.min?` over a linear order. -/
theorem min?_spec {α : Type} [LinearOrder α] {l : List α} {m : α}
    (h : l.min? = some m) : m ∈ l ∧ ∀ b ∈ l, m ≤ b := by
  have : Std.Antisymm (α := α) (· ≤ ·) := ⟨@fun _ _ h₁ h₂ => le_antisymm h₁ h₂⟩
  rw [List.min?_eq_some_iff le_refl min_choice (fun _ _ _ => le_min_iff)] at h
  exact h

/-- Characterization of `List.max?` over a linear order. -/
theorem max?_spec {α : Type} [LinearOrder α] {l : List α} {m : α}
    (h : l.max? = some m) : m ∈ l ∧ ∀ b ∈ l, b ≤ m := by
  have : Std.Antisymm (α := α) (· ≤ ·) := ⟨@fun _ _ h₁ h₂ => le_antisymm h₁ h₂⟩
  rw [List.max?_eq_some_iff le_refl max_choice (fun _ _ _ => max_le_iff)] at h
  exact h

/-- `firstMinIdx` of a non-empty list is in range, attains the minimum at
its index, and every strictly earlier index holds a strictly larger value
(ties resolve to the earliest index). -/
theorem firstMinIdx_spec {α : Type} [LinearOrder α] (l : List α) (d : α)
    (hl : l ≠ []) :
    firstMinIdx l < l.length ∧
    (∀ j, j < l.length → l.getD (firstMinIdx l) d ≤ l.getD j d) ∧
    (∀ j, j < firstMinIdx l → l.getD (firstMinIdx l) d < l.getD j d) := by
  rcases hm : l.min? with _ | m
  · exact absurd (List.min?_eq_none_iff.mp hm) hl
  obtain ⟨hmem, hle⟩ := min?_spec hm
  have hidx : l.findIdx (fun x => decide (x = m)) < l.length :=
    List.findIdx_lt_length_of_exists ⟨m, hmem, by simp⟩
  have hval : l[l.findIdx (fun x => decide (x = m))] = m := by
    have := List.findIdx_getElem (w := hidx)
    simpa using this
  have hfi : firstMinIdx l = l.findIdx (fun x => decide (x = m)) := by
    unfold firstMinIdx
    rw [hm]
  refine ⟨hfi ▸ hidx, ?_, ?_⟩
  · intro j hj
    rw [hfi, List.getD_eq_getElem l d hidx, List.getD_eq_getElem l d hj, hval]
    exact hle _ (l.getElem_mem hj)
  · intro j hj
    rw [hfi] at hj
    have hjlen : j < l.length := hj.trans hidx
    rw [hfi, List.getD_eq_getElem l d hidx, List.getD_eq_getElem l d hjlen, hval]
    have hne := List.not_of_lt_findIdx hj
    simp only [decide_eq_false_iff_not] at hne
    exact lt_of_le_of_ne (hle _ (l.getElem_mem hjlen)) (fun hEq => hne hEq.symm)

/-- `firstMaxIdx` of a non-empty list is in range. -/
theorem firstMaxIdx_lt_length {α : Type} [LinearOrder α] (l : List α)
    (hl : l ≠ []) : firstMaxIdx l < l.length := by
  rcases hm : l.max? with _ | m
  · exact absurd (List.max?_eq_none_iff.mp hm) hl
  obtain ⟨hmem, -⟩ := max?_spec hm
  have hidx : l.findIdx (fun x => decide (x = m)) < l.length :=
    List.findIdx_lt_length_of_exists ⟨m, hmem, by simp⟩
  unfold firstMaxIdx
  rw [hm]
  exact hidx

/-- `firstMinIdx` of a non-empty list is in range. -/
theorem firstMinIdx_lt_length {α : Type} [LinearOrder α] (l : List α)
    (hl : l ≠ []) : firstMinIdx l < l.length :=
  (firstMinIdx_spec l (l.head hl) hl).1

/-- An in-range element of `takeWhile` is the corresponding element of the
underlying list. -/
theorem getD_takeWhile {α : Type} (p : α → Bool) (d : α) :
    ∀ (l : List α) (k : ℕ), k < (l.takeWhile p).length →
      (l.takeWhile p).getD k d = l.getD k d := by
  intro l
  induction l with
  | nil => intro k hk; simp at hk
  | cons a l ih =>
    intro k hk
    by_cases hpa : p a
    · rw [List.takeWhile_cons_of_pos hpa] at hk ⊢
      cases k with
      | zero => simp
      | succ k =>
        simp only [List.getD_cons_succ]
        exact ih k (by simpa using hk)
    · rw [List.takeWhile_cons_of_neg hpa] at hk
      simp at hk

/-- The length of the scan never exceeds the series length. -/
theorem scanH_length_le (s : List (DT × ℚ)) (hY : ℕ) :
    (scanH s hY).length ≤ s.length := by
  unfold scanH
  calc (((List.range s.length).takeWhile (keepIdx s hY)).map
        (fun i => mkEntry s i (findEnd s (targetAt s hY i)))).length
      = ((List.range s.length).takeWhile (keepIdx s hY)).length :=
        List.length_map _ _
    _ ≤ (List.range s.length).length :=
        (List.takeWhile_sublist _).length_le
    _ = s.length := List.length_range _

/-- Structure of the scan output: the entry at position `k` is the interval
whose start index is `k` itself (the loop records starts consecutively
from index 0 until the first overflow), its end index is the
`searchsorted` result, and the loop guard held at `k`. -/
theorem scanH_getD (s : List (DT × ℚ)) (hY : ℕ) (k : ℕ)
    (hk : k < (scanH s hY).length) :
    (scanH s hY).getD k dumE = mkEntry s k (findEnd s (targetAt s hY k)) ∧
    k < s.length ∧ keepIdx s hY k = true := by
  have hlen : k < s.length := lt_of_lt_of_le hk (scanH_length_le s hY)
  have hrange : k < (List.range s.length).length := by simpa using hlen
  simp only [scanH] at hk ⊢
  have htwlen : k < ((List.range s.length).takeWhile (keepIdx s hY)).length := by
    simpa using hk
  have htwk : ((List.range s.length).takeWhile (keepIdx s hY))[k] = k := by
    have h0 := getD_takeWhile (keepIdx s hY) 0 (List.range s.length) k htwlen
    rw [List.getD_eq_getElem _ _ htwlen, List.getD_eq_getElem _ _ hrange] at h0
    simpa using h0
  refine ⟨?_, hlen, ?_⟩
  · rw [List.getD_eq_getElem _ _ hk, List.getElem_map, htwk]
  · have hmem : k ∈ (List.range s.length).takeWhile (keepIdx s hY) :=
      htwk ▸ List.getElem_mem htwlen
    exact List.mem_takeWhile_imp hmem

/-- C1: over a chronologically sorted series, every interval produced by
the window-return scan has an end timestamp that is a timestamp of the
series, at or after `addYears(start, H)`, and that end timestamp is the
earliest timestamp of the series satisfying this bound (right-biased
search); since the recorded end index is strictly inside the data, an
interval whose target falls past the last timestamp is never produced.
The script fixes the horizon `H` to 4 years (`scan4 s = scanH s 4`). -/
theorem c1_scan_end_right_biased (s : List (DT × ℚ)) (hY : ℕ)
    (hs : s.Pairwise (fun a b => a.1.toMin < b.1.toMin)) :
    ∀ e ∈ scanH s hY,
      (∃ j, j < s.length ∧ (s.getD j dumQ).1 = e.ed) ∧
      (DT.addYears e.sd hY).toMin ≤ e.ed.toMin ∧
      (∀ q ∈ s, (DT.addYears e.sd hY).toMin ≤ q.1.toMin →
        e.ed.toMin ≤ q.1.toMin) := by
  intro e he
  obtain ⟨k, hk, hek⟩ := List.mem_iff_getElem.mp he
  obtain ⟨hentry, hklen, hkeep⟩ := scanH_getD s hY k hk
  have he' : e = mkEntry s k (findEnd s (targetAt s hY k)) := by
    rw [← hek, ← List.getD_eq_getElem _ _ hk]
    exact hentry
  have hj : findEnd s (targetAt s hY k) < s.length := by
    unfold keepIdx at hkeep
    exact of_decide_eq_true hkeep
  have htgt : targetAt s hY k = DT.addYears e.sd hY := by
    rw [he']
    rfl
  have hj2 : s.findIdx
      (fun q => decide ((targetAt s hY k).toMin ≤ q.1.toMin)) < s.length := hj
  have hpj : (targetAt s hY k).toMin ≤
      ((s.getD (findEnd s (targetAt s hY k)) dumQ).1).toMin := by
    have hpj0 := List.findIdx_getElem (w := hj2)
    rw [List.getD_eq_getElem _ _ hj]
    simpa [findEnd] using hpj0
  have heed : e.ed = (s.getD (findEnd s (targetAt s hY k)) dumQ).1 := by
    rw [he']
    rfl
  refine ⟨⟨findEnd s (targetAt s hY k), hj, heed.symm⟩, ?_, ?_⟩
  · rw [heed, ← htgt]
    exact hpj
  · intro q hq hqt
    obtain ⟨kq, hkq, hqe⟩ := List.mem_iff_getElem.mp hq
    rcases lt_trichotomy kq (findEnd s (targetAt s hY k)) with hlt | hEq | hgt
    · exfalso
      have hfalse := List.not_of_lt_findIdx
        (show kq < List.findIdx
          (fun q => decide ((targetAt s hY k).toMin ≤ q.1.toMin)) s from hlt)
      simp only [decide_eq_false_iff_not, not_le] at hfalse
      have hqt2 : (targetAt s hY k).toMin ≤ q.1.toMin := by
        rw [htgt]
        exact hqt
      have hq1 : q.1.toMin < (targetAt s hY k).toMin := by
        rw [← hqe]
        exact hfalse
      exact absurd hqt2 (not_le_of_lt hq1)
    · subst hqe
      subst hEq
      rw [heed, List.getD_eq_getElem _ _ hj]
    · have hrel := (List.pairwise_iff_getElem.mp hs) _ _ hj hkq hgt
      rw [heed, List.getD_eq_getElem _ _ hj]
      rw [← hqe]
      exact le_of_lt hrel


/-- Evaluation of the scan on the concrete series `wSeries1`: exactly one
interval, from the first sample to the second. -/
theorem scan4_wSeries1_eval : scan4 wSeries1 = [wEntry1] := by
  simp only [scan4, wSeries1, wEntry1, scanH, List.length_cons, List.length_nil]
  norm_num [List.range_succ, List.takeWhile, keepIdx, findEnd, targetAt,
    mkEntry, DT.addYears, DT.toMin, daysBeforeYear, daysBeforeMonth,
    daysInMonth, isLeap, List.findIdx, List.findIdx.go, dumQ, dumDT,
    List.range_zero]

/-- Sortedness of the concrete series `wSeries1`. -/
theorem wSeries1_sorted :
    wSeries1.Pairwise (fun a b => a.1.toMin < b.1.toMin) := by
  simp only [wSeries1, List.pairwise_cons, List.mem_singleton]
  refine ⟨?_, by simp⟩
  intro b hb
  rw [hb]
  decide

/-- Witness for C1: on the concrete series `wSeries1` the hypotheses hold
and the scanned interval satisfies the guarantee. -/
theorem c1_scan_end_right_biased_witness :
    wSeries1.Pairwise (fun a b => a.1.toMin < b.1.toMin) ∧
    wEntry1 ∈ scanH wSeries1 4 ∧
    ((∃ j, j < wSeries1.length ∧ (wSeries1.getD j dumQ).1 = wEntry1.ed) ∧
      (DT.addYears wEntry1.sd 4).toMin ≤ wEntry1.ed.toMin ∧
      (∀ q ∈ wSeries1, (DT.addYears wEntry1.sd 4).toMin ≤ q.1.toMin →
        wEntry1.ed.toMin ≤ q.1.toMin)) := by
  have hpair := wSeries1_sorted
  have hmem : wEntry1 ∈ scanH wSeries1 4 := by
    rw [show scanH wSeries1 4 = scan4 wSeries1 from rfl, scan4_wSeries1_eval]
    exact List.mem_singleton.mpr rfl
  exact ⟨hpair, hmem, c1_scan_end_right_biased wSeries1 4 hpair wEntry1 hmem⟩

/-- On a sorted series, `searchsorted` applied to the timestamp of index
`j` recovers exactly `j` (this is how `analyze_btc_returns` re-derives the
end index of the reported extreme intervals from their recorded end
dates). -/
theorem findEnd_getD (s : List (DT × ℚ))
    (hs : s.Pairwise (fun a b => a.1.toMin < b.1.toMin))
    (j : ℕ) (hj : j < s.length) :
    findEnd s ((s.getD j dumQ).1) = j := by
  unfold findEnd
  rw [List.findIdx_eq hj]
  constructor
  · rw [List.getD_eq_getElem _ _ hj]
    simp
  · intro i hij
    have hi : i < s.length := hij.trans hj
    have hrel := (List.pairwise_iff_getElem.mp hs) _ _ hi hj hij
    rw [List.getD_eq_getElem _ _ hj]
    simp only [decide_eq_false_iff_not, not_le]
    exact hrel

/-- The reported record derived from scan position `idx` is internally
consistent: its start price is the series price at its start date, its end
price is the series price at its end date, and its return is determined by
those two prices. -/
theorem report_side_consistent (s : List (DT × ℚ))
    (hs : s.Pairwise (fun a b => a.1.toMin < b.1.toMin))
    (idx : ℕ) (hidx : idx < (scan4 s).length) :
    (((scan4 s).getD idx dumE).sd, (s.getD idx dumQ).2) ∈ s ∧
    (((scan4 s).getD idx dumE).ed,
      (s.getD (findEnd s (((scan4 s).getD idx dumE).ed)) dumQ).2) ∈ s ∧
    ((scan4 s).getD idx dumE).ret =
      ((s.getD (findEnd s (((scan4 s).getD idx dumE).ed)) dumQ).2 -
        (s.getD idx dumQ).2) / (s.getD idx dumQ).2 * 100 := by
  obtain ⟨hentry, hilen, hkeep⟩ := scanH_getD s 4 idx hidx
  have hj : findEnd s (targetAt s 4 idx) < s.length := by
    unfold keepIdx at hkeep
    exact of_decide_eq_true hkeep
  have hed : (((scan4 s).getD idx dumE)).ed =
      (s.getD (findEnd s (targetAt s 4 idx)) dumQ).1 := by
    show ((scanH s 4).getD idx dumE).ed = _
    rw [hentry]
    rfl
  have hrec : findEnd s ((((scan4 s)).getD idx dumE).ed) =
      findEnd s (targetAt s 4 idx) := by
    rw [hed]
    exact findEnd_getD s hs _ hj
  refine ⟨?_, ?_, ?_⟩
  · have hsd : (((scan4 s)).getD idx dumE).sd = (s.getD idx dumQ).1 := by
      show ((scanH s 4).getD idx dumE).sd = _
      rw [hentry]
      rfl
    rw [hsd, List.getD_eq_getElem _ _ hilen]
    simp only [Prod.mk.eta]
    exact List.getElem_mem hilen
  · rw [hrec, hed, List.getD_eq_getElem _ _ hj]
    simp only [Prod.mk.eta]
    exact List.getElem_mem hj
  · have hret : (((scan4 s)).getD idx dumE).ret =
        ((s.getD (findEnd s (targetAt s 4 idx)) dumQ).2 -
          (s.getD idx dumQ).2) / (s.getD idx dumQ).2 * 100 := by
      show ((scanH s 4).getD idx dumE).ret = _
      rw [hentry]
      rfl
    rw [hret, hrec]

/-- C10: whenever the scan produced at least one interval, the reported
highest-return and lowest-return records are internally consistent: the
reported start price is the series mid price at the reported start date,
the reported end price is the series mid price at the reported end date,
and the reported return equals the percentage return recomputed from those
two reported prices. -/
theorem c10_report_internally_consistent (s : List (DT × ℚ))
    (hs : s.Pairwise (fun a b => a.1.toMin < b.1.toMin))
    (r : ScanReport) (hr : analyze_btc_returns s = some r) :
    ((r.highest.sd, r.highest.sp) ∈ s ∧ (r.highest.ed, r.highest.ep) ∈ s ∧
      r.highest.ret = (r.highest.ep - r.highest.sp) / r.highest.sp * 100) ∧
    ((r.lowest.sd, r.lowest.sp) ∈ s ∧ (r.lowest.ed, r.lowest.ep) ∈ s ∧
      r.lowest.ret = (r.lowest.ep - r.lowest.sp) / r.lowest.sp * 100) := by
  unfold analyze_btc_returns at hr
  by_cases hemp : scan4 s = []
  · rw [if_pos hemp] at hr
    exact absurd hr (by simp)
  · rw [if_neg hemp, Option.some.injEq] at hr
    have hne : (scan4 s).map (fun e => e.ret) ≠ [] := by
      simpa using hemp
    have hmax : firstMaxIdx ((scan4 s).map (fun e => e.ret)) <
        (scan4 s).length := by
      have h := firstMaxIdx_lt_length _ hne
      simpa using h
    have hmin : firstMinIdx ((scan4 s).map (fun e => e.ret)) <
        (scan4 s).length := by
      have h := firstMinIdx_lt_length _ hne
      simpa using h
    subst hr
    exact ⟨report_side_consistent s hs _ hmax, report_side_consistent s hs _ hmin⟩


/-- Evaluation of the full report on `wSeries1`. -/
theorem analyze_btc_returns_wSeries1_eval :
    analyze_btc_returns wSeries1 = some wReport1 := by
  simp only [analyze_btc_returns, scan4_wSeries1_eval]
  norm_num [wEntry1, wReport1, wSeries1, firstMaxIdx, firstMinIdx,
    List.max?, List.min?, List.findIdx, List.findIdx.go, findEnd,
    DT.toMin, daysBeforeYear, daysBeforeMonth, daysInMonth, isLeap,
    dumE, dumQ, dumDT]

/-- Witness for C10: on `wSeries1` the report exists and its extreme
records are internally consistent. -/
theorem c10_report_internally_consistent_witness :
    wSeries1.Pairwise (fun a b => a.1.toMin < b.1.toMin) ∧
    analyze_btc_returns wSeries1 = some wReport1 ∧
    (((wReport1.highest.sd, wReport1.highest.sp) ∈ wSeries1 ∧
      (wReport1.highest.ed, wReport1.highest.ep) ∈ wSeries1 ∧
      wReport1.highest.ret =
        (wReport1.highest.ep - wReport1.highest.sp) / wReport1.highest.sp * 100) ∧
    ((wReport1.lowest.sd, wReport1.lowest.sp) ∈ wSeries1 ∧
      (wReport1.lowest.ed, wReport1.lowest.ep) ∈ wSeries1 ∧
      wReport1.lowest.ret =
        (wReport1.lowest.ep - wReport1.lowest.sp) / wReport1.lowest.sp * 100)) :=
  ⟨wSeries1_sorted, analyze_btc_returns_wSeries1_eval,
    c10_report_internally_consistent wSeries1 wSeries1_sorted wReport1
      analyze_btc_returns_wSeries1_eval⟩

/-- C2 (code bug): at the spec's literal scenario principal 20000,
apr 0, term 48 the monthly-payment computation does not return
principal / term_months = 416.66...; the amortization formula's
denominator is zero, the Python float division raises
`ZeroDivisionError` (both in `calculate_loan_metrics` and in the inlined
copy in `analyze_auto_loan`), and the simulators fail instead of
producing a result.  The spec value would be 20000/48 = 1250/3. -/
theorem c2_zero_apr_division_fails :
    calculate_loan_metrics 20000 0 48 10 = none ∧
    analyze_auto_loan [(⟨2024, 1, 1, 0⟩, 100)] 20000 0 48 10 1 =
      .error .divByZero ∧
    (20000 : ℚ) / 48 = 1250 / 3 := by
  refine ⟨?_, ?_, by norm_num⟩
  · norm_num [calculate_loan_metrics]
  · norm_num [analyze_auto_loan]

/-- C5 (code bug): the mid-price constructions of
`4-year-return-analysis.py` and `btc_loan_analysis.py` are (high+low)/2,
but the one in `auto_loan_analysis.py` line 189 is high + low/2 (missing
parentheses), so at high 100, low 50 it yields 125 instead of 75. -/
theorem c5_auto_loan_mid_price_mismatch :
    avg_price_auto_loan 100 50 = 125 ∧
    avg_price_btc_loan 100 50 = 75 ∧
    avg_price_return_analysis 100 50 = 75 ∧
    avg_price_auto_loan 100 50 ≠ avg_price_btc_loan 100 50 := by
  refine ⟨?_, ?_, ?_, ?_⟩ <;>
    norm_num [avg_price_auto_loan, avg_price_btc_loan, avg_price_return_analysis]

/-- C3: the effective-rate resolver of the code agrees, on all inputs and
with the term as claimed positive, with the spec's resolver contract: it
returns the COST regime exactly when the net interest after the asset
position is positive, with the claimed annualized rate and compounding
figure, and otherwise the RETURN regime with gain = -netInterest,
capitalDeployed = principal + totalInterest + netAssetPosition, the
claimed annualized return and the simple total-return percentage. -/
theorem c3_effective_rates_match_spec
    (total_interest net_bitcoin_position principal : ℝ) (term_months : ℕ)
    (_ht : 0 < term_months) :
    calculate_effective_rates total_interest net_bitcoin_position principal
      term_months =
    effective_rate_resolver_spec total_interest net_bitcoin_position principal
      term_months := by
  unfold calculate_effective_rates effective_rate_resolver_spec
  by_cases h : 0 < total_interest - net_bitcoin_position
  · rw [if_pos h, if_pos h]
  · rw [if_neg h, if_neg h]
    rw [abs_of_nonpos (le_of_not_lt h)]

/-- Witness for C3 at a concrete input (term 12, a RETURN-regime case). -/
theorem c3_effective_rates_match_spec_witness :
    0 < 12 ∧
    calculate_effective_rates 100 150 1000 12 =
      effective_rate_resolver_spec 100 150 1000 12 :=
  ⟨by norm_num, c3_effective_rates_match_spec 100 150 1000 12 (by norm_num)⟩

/-- C6: the simulator's window start is the window end shifted back by
`term_months` months (month index moves back by exactly `term_months`,
day clamped to the target month, time preserved); it generates exactly
`term_months` purchase dates at month-end boundaries in consecutive
months starting from the window start's month, and remaps each generated
date's day-of-month to `min(payment_day, endOfMonth(year, month))` of
that same month. -/
theorem c6_payment_dates_spec (s : List (DT × ℚ)) (term payment_day k : ℕ)
    (hk : k < term) (dtEnd : DT) :
    (paymentDatesOf s term payment_day).length = term ∧
    monthIdxOf (DT.subMonths dtEnd term) = monthIdxOf dtEnd - term ∧
    (DT.subMonths dtEnd term).t = dtEnd.t ∧
    (DT.subMonths dtEnd term).d =
      min dtEnd.d (daysInMonth (DT.subMonths dtEnd term).y
        (DT.subMonths dtEnd term).m) ∧
    monthIdxOf ((monthEnds (windowStartOf s term) term).getD k dumDT) =
      monthIdxOf (windowStartOf s term) + k ∧
    ((monthEnds (windowStartOf s term) term).getD k dumDT).d =
      daysInMonth ((monthEnds (windowStartOf s term) term).getD k dumDT).y
        ((monthEnds (windowStartOf s term) term).getD k dumDT).m ∧
    ((monthEnds (windowStartOf s term) term).getD k dumDT).t =
      (windowStartOf s term).t ∧
    (paymentDatesOf s term payment_day).getD k dumDT =
      clampToPaymentDay ((monthEnds (windowStartOf s term) term).getD k dumDT)
        payment_day ∧
    ((paymentDatesOf s term payment_day).getD k dumDT).d =
      min payment_day
        (daysInMonth ((monthEnds (windowStartOf s term) term).getD k dumDT).y
          ((monthEnds (windowStartOf s term) term).getD k dumDT).m) := by
  have hlen_me : (monthEnds (windowStartOf s term) term).length = term := by
    simp [monthEnds]
  have hlen_pd : (paymentDatesOf s term payment_day).length = term := by
    simp [paymentDatesOf, monthEnds]
  have hk_me : k < (monthEnds (windowStartOf s term) term).length := by
    rw [hlen_me]; exact hk
  have hk_pd : k < (paymentDatesOf s term payment_day).length := by
    rw [hlen_pd]; exact hk
  have hme : (monthEnds (windowStartOf s term) term).getD k dumDT =
      ⟨(monthIdxOf (windowStartOf s term) + k) / 12,
        (monthIdxOf (windowStartOf s term) + k) % 12 + 1,
        daysInMonth ((monthIdxOf (windowStartOf s term) + k) / 12)
          ((monthIdxOf (windowStartOf s term) + k) % 12 + 1),
        (windowStartOf s term).t⟩ := by
    rw [List.getD_eq_getElem _ _ hk_me]
    simp [monthEnds]
  have hpd : (paymentDatesOf s term payment_day).getD k dumDT =
      clampToPaymentDay ((monthEnds (windowStartOf s term) term).getD k dumDT)
        payment_day := by
    rw [List.getD_eq_getElem _ _ hk_pd, List.getD_eq_getElem _ _ hk_me]
    simp [paymentDatesOf]
  refine ⟨hlen_pd, ?_, rfl, rfl, ?_, ?_, ?_, hpd, ?_⟩
  · simp only [DT.subMonths, monthIdxOf]
    omega
  · rw [hme]
    simp only [monthIdxOf]
    omega
  · rw [hme]
  · rw [hme]
  · rw [hpd, hme]
    rfl

/-- Witness for C6 at a concrete series, term 2, payment day 1,
second generated date, and a concrete window end. -/
theorem c6_payment_dates_spec_witness :
    1 < 2 ∧
    ((paymentDatesOf wSeries1 2 1).length = 2 ∧
    monthIdxOf (DT.subMonths ⟨2024, 3, 31, 90⟩ 2) =
      monthIdxOf ⟨2024, 3, 31, 90⟩ - 2 ∧
    (DT.subMonths ⟨2024, 3, 31, 90⟩ 2).t = (⟨2024, 3, 31, 90⟩ : DT).t ∧
    (DT.subMonths ⟨2024, 3, 31, 90⟩ 2).d =
      min (⟨2024, 3, 31, 90⟩ : DT).d
        (daysInMonth (DT.subMonths ⟨2024, 3, 31, 90⟩ 2).y
          (DT.subMonths ⟨2024, 3, 31, 90⟩ 2).m) ∧
    monthIdxOf ((monthEnds (windowStartOf wSeries1 2) 2).getD 1 dumDT) =
      monthIdxOf (windowStartOf wSeries1 2) + 1 ∧
    ((monthEnds (windowStartOf wSeries1 2) 2).getD 1 dumDT).d =
      daysInMonth ((monthEnds (windowStartOf wSeries1 2) 2).getD 1 dumDT).y
        ((monthEnds (windowStartOf wSeries1 2) 2).getD 1 dumDT).m ∧
    ((monthEnds (windowStartOf wSeries1 2) 2).getD 1 dumDT).t =
      (windowStartOf wSeries1 2).t ∧
    (paymentDatesOf wSeries1 2 1).getD 1 dumDT =
      clampToPaymentDay ((monthEnds (windowStartOf wSeries1 2) 2).getD 1 dumDT)
        1 ∧
    ((paymentDatesOf wSeries1 2 1).getD 1 dumDT).d =
      min 1
        (daysInMonth ((monthEnds (windowStartOf wSeries1 2) 2).getD 1 dumDT).y
          ((monthEnds (windowStartOf wSeries1 2) 2).getD 1 dumDT).m)) :=
  ⟨by norm_num,
    c6_payment_dates_spec wSeries1 2 1 1 (by norm_num) ⟨2024, 3, 31, 90⟩⟩

/-- Characterization of the price lookup used inside the purchase loop:
on a non-empty sample list it returns the price of a sample whose
timestamp minimizes the absolute difference (in minutes) to the purchase
date, and every strictly earlier sample has a strictly larger difference,
so ties resolve to the earliest sample. -/
theorem resolvedPrice_first_nearest (period : List (DT × ℚ)) (p : DT)
    (hne : period ≠ []) :
    ∃ i, i < period.length ∧
      resolvedPrice period p = (period.getD i dumQ).2 ∧
      (∀ j, j < period.length →
        Nat.dist ((period.getD i dumQ).1).toMin p.toMin ≤
          Nat.dist ((period.getD j dumQ).1).toMin p.toMin) ∧
      (∀ j, j < i →
        Nat.dist ((period.getD i dumQ).1).toMin p.toMin <
          Nat.dist ((period.getD j dumQ).1).toMin p.toMin) := by
  have hmapne : period.map (fun q => Nat.dist q.1.toMin p.toMin) ≠ [] := by
    simpa using hne
  obtain ⟨hlt, hmin, hfirst⟩ :=
    firstMinIdx_spec (period.map (fun q => Nat.dist q.1.toMin p.toMin)) 0 hmapne
  have hlen : (period.map (fun q => Nat.dist q.1.toMin p.toMin)).length =
      period.length := List.length_map _ _
  have hgd : ∀ j, j < period.length →
      (period.map (fun q => Nat.dist q.1.toMin p.toMin)).getD j 0 =
        Nat.dist ((period.getD j dumQ).1).toMin p.toMin := by
    intro j hj
    rw [List.getD_eq_getElem _ _ (by rw [hlen]; exact hj),
      List.getD_eq_getElem _ _ hj, List.getElem_map]
  refine ⟨firstMinIdx (period.map (fun q => Nat.dist q.1.toMin p.toMin)),
    by rw [← hlen]; exact hlt, by rfl, ?_, ?_⟩
  · intro j hj
    have h1 := hmin j (by rw [hlen]; exact hj)
    rw [hgd _ (by rw [← hlen]; exact hlt), hgd _ hj] at h1
    exact h1
  · intro j hj
    have h1 := hfirst j hj
    have hjlen : j < period.length := by
      rw [← hlen]
      exact hj.trans hlt
    rw [hgd _ (by rw [← hlen]; exact hlt), hgd _ hjlen] at h1
    exact h1

/-- The resolved price is the price of some sample of the period. -/
theorem resolvedPrice_mem (period : List (DT × ℚ)) (p : DT)
    (hne : period ≠ []) : ∃ q ∈ period, resolvedPrice period p = q.2 := by
  obtain ⟨i, hi, hpr, -, -⟩ := resolvedPrice_first_nearest period p hne
  refine ⟨period.getD i dumQ, ?_, hpr⟩
  rw [List.getD_eq_getElem _ _ hi]
  exact List.getElem_mem hi

/-- The purchase loop completes whenever all available prices are nonzero:
it returns the invested total `inv + amount * (number of purchases)`, and
with a zero allocation the accumulated quantity stays at its initial
value. -/
theorem buyLoop_ok (period : List (DT × ℚ)) (amount : ℚ)
    (hne : period ≠ []) (hnz : ∀ q ∈ period, q.2 ≠ 0) :
    ∀ (pdates : List DT) (acc inv : ℚ),
      ∃ a2 i2, buyLoop period amount pdates acc inv = .ok (a2, i2) ∧
        i2 = inv + amount * pdates.length ∧
        (amount = 0 → a2 = acc) := by
  intro pdates
  induction pdates with
  | nil =>
    intro acc inv
    exact ⟨acc, inv, rfl, by simp, fun _ => rfl⟩
  | cons p rest ih =>
    intro acc inv
    have hpz : resolvedPrice period p ≠ 0 := by
      obtain ⟨q, hq, hpr⟩ := resolvedPrice_mem period p hne
      rw [hpr]
      exact hnz q hq
    obtain ⟨a2, i2, heq, hinv, hacc⟩ :=
      ih (acc + amount / resolvedPrice period p) (inv + amount)
    refine ⟨a2, i2, ?_, ?_, ?_⟩
    · simp only [buyLoop, if_neg hpz]
      exact heq
    · rw [hinv]
      simp only [List.length_cons]
      push_cast
      ring
    · intro h0
      rw [hacc h0, h0]
      simp

/-- With a positive APR and a positive term, the amortization denominator
is positive. -/
theorem amort_den_pos (apr : ℚ) (term : ℕ) (hapr : 0 < apr)
    (hterm : 0 < term) : 0 < (1 + apr / 12 / 100) ^ term - 1 := by
  have h0 : (0 : ℚ) < apr / 12 / 100 :=
    div_pos (div_pos hapr (by norm_num : (0:ℚ) < 12))
      (by norm_num : (0:ℚ) < 100)
  have h1 : (1 : ℚ) < 1 + apr / 12 / 100 := by linarith
  have := one_lt_pow₀ h1 hterm.ne'
  linarith

/-- When the window start does not exceed any series timestamp, the filter
keeps the whole series. -/
theorem periodOf_eq_self (s : List (DT × ℚ)) (term : ℕ)
    (hwin : ∀ q ∈ s, (windowStartOf s term).toMin ≤ q.1.toMin) :
    periodOf s term = s := by
  rw [periodOf, List.filter_eq_self]
  intro q hq
  simpa using hwin q hq

/-- Complete run of `analyze_btc_enhanced_loan` under nonzero prices and a
nonzero amortization denominator, with the invested total and the
zero-allocation behavior exposed. -/
theorem analyze_btc_ok (s : List (DT × ℚ)) (principal apr btc_pct : ℚ)
    (term : ℕ) (hne : s ≠ [])
    (hwin : ∀ q ∈ s, (windowStartOf s term).toMin ≤ q.1.toMin)
    (hnz : ∀ q ∈ s, q.2 ≠ 0)
    (hden : (1 + apr / 12 / 100) ^ term - 1 ≠ 0) :
    ∃ r, analyze_btc_enhanced_loan s principal apr term btc_pct = .ok r ∧
      r.total_btc_investment =
        principal * ((apr / 12 / 100) * (1 + apr / 12 / 100) ^ term) /
          ((1 + apr / 12 / 100) ^ term - 1) * (btc_pct / 100) * term ∧
      (btc_pct = 0 → r.btc_accumulated = 0 ∧ r.roi_percentage = 0 ∧
        r.total_btc_investment = 0) := by
  have hlm : calculate_loan_metrics principal apr term btc_pct =
      some ⟨principal * ((apr / 12 / 100) * (1 + apr / 12 / 100) ^ term) /
          ((1 + apr / 12 / 100) ^ term - 1),
        principal * ((apr / 12 / 100) * (1 + apr / 12 / 100) ^ term) /
          ((1 + apr / 12 / 100) ^ term - 1) * (btc_pct / 100),
        principal * ((apr / 12 / 100) * (1 + apr / 12 / 100) ^ term) /
          ((1 + apr / 12 / 100) ^ term - 1) * term⟩ := by
    simp only [calculate_loan_metrics, if_neg hden]
  have hperiod := periodOf_eq_self s term hwin
  have hlast : (periodOf s term).getLast? = some (s.getLast hne) := by
    rw [hperiod]
    exact List.getLast?_eq_getLast s hne
  obtain ⟨a2, i2, hloop, hinv, hacc⟩ :=
    buyLoop_ok (periodOf s term)
      (principal * ((apr / 12 / 100) * (1 + apr / 12 / 100) ^ term) /
          ((1 + apr / 12 / 100) ^ term - 1) * (btc_pct / 100))
      (by rw [hperiod]; exact hne)
      (by rw [hperiod]; exact hnz)
      (monthEnds (windowStartOf s term) term) 0 0
  have hinv2 : i2 = principal * ((apr / 12 / 100) * (1 + apr / 12 / 100) ^ term) /
      ((1 + apr / 12 / 100) ^ term - 1) * (btc_pct / 100) * term := by
    rw [hinv]
    simp [monthEnds]
  refine ⟨⟨a2, i2, a2 * (s.getLast hne).2, a2 * (s.getLast hne).2 - i2,
    if 0 < i2 then (a2 * (s.getLast hne).2 - i2) / i2 * 100 else 0⟩, ?_, ?_, ?_⟩
  · simp only [analyze_btc_enhanced_loan, hlm, hlast, hloop]
  · exact hinv2
  · intro h0
    have hamt : principal * ((apr / 12 / 100) * (1 + apr / 12 / 100) ^ term) /
        ((1 + apr / 12 / 100) ^ term - 1) * (btc_pct / 100) = 0 := by
      rw [h0]
      norm_num
    have hi0 : i2 = 0 := by
      rw [hinv2, h0]
      ring
    refine ⟨hacc hamt, ?_, hi0⟩
    simp [hi0]

/-- Complete run of `analyze_auto_loan` under nonzero prices and a nonzero
amortization denominator: with a nonzero invested total the simulation
returns a result, and with a zero monthly allocation the unguarded roi
division fails with a division by zero. -/
theorem analyze_auto_run (s : List (DT × ℚ)) (principal apr btc_pct : ℚ)
    (term payment_day : ℕ) (hne : s ≠ [])
    (hwin : ∀ q ∈ s, (windowStartOf s term).toMin ≤ q.1.toMin)
    (hnz : ∀ q ∈ s, q.2 ≠ 0)
    (hden : (1 + apr / 12 / 100) ^ term - 1 ≠ 0) :
    (principal * ((apr / 12 / 100) * (1 + apr / 12 / 100) ^ term) /
        ((1 + apr / 12 / 100) ^ term - 1) * (btc_pct / 100) * term ≠ 0 →
      ∃ r, analyze_auto_loan s principal apr term btc_pct payment_day =
        .ok r) ∧
    (principal * ((apr / 12 / 100) * (1 + apr / 12 / 100) ^ term) /
        ((1 + apr / 12 / 100) ^ term - 1) * (btc_pct / 100) = 0 →
      analyze_auto_loan s principal apr term btc_pct payment_day =
        .error .divByZero) := by
  have hperiod := periodOf_eq_self s term hwin
  have hlast : (periodOf s term).getLast? = some (s.getLast hne) := by
    rw [hperiod]
    exact List.getLast?_eq_getLast s hne
  obtain ⟨a2, i2, hloop, hinv, hacc⟩ :=
    buyLoop_ok (periodOf s term)
      (principal * ((apr / 12 / 100) * (1 + apr / 12 / 100) ^ term) /
          ((1 + apr / 12 / 100) ^ term - 1) * (btc_pct / 100))
      (by rw [hperiod]; exact hne)
      (by rw [hperiod]; exact hnz)
      (paymentDatesOf s term payment_day) 0 0
  have hinv2 : i2 = principal * ((apr / 12 / 100) * (1 + apr / 12 / 100) ^ term) /
      ((1 + apr / 12 / 100) ^ term - 1) * (btc_pct / 100) * term := by
    rw [hinv]
    simp [paymentDatesOf, monthEnds]
  constructor
  · intro hinvne
    have hi2ne : ¬ i2 = 0 := by
      rw [hinv2]
      exact hinvne
    refine ⟨⟨a2, i2, a2 * (s.getLast hne).2, a2 * (s.getLast hne).2 - i2,
      (a2 * (s.getLast hne).2 - i2) / i2 * 100⟩, ?_⟩
    simp only [analyze_auto_loan, if_neg hden, hlast, hloop, if_neg hi2ne]
  · intro hamt
    have hi20 : i2 = 0 := by
      rw [hinv2, hamt]
      ring
    simp only [analyze_auto_loan, if_neg hden, hlast, hloop, if_pos hi20]


/-- C4 (amended): each purchase price used by the simulators is resolved
against the period filtered to timestamps at or after the window start
(not the whole series): among the filtered samples it belongs to one
minimizing the absolute timestamp difference to the purchase date, and
every strictly earlier filtered sample is strictly farther, so ties
resolve to the earlier sample. -/
theorem c4_purchase_price_nearest_in_window (s : List (DT × ℚ)) (term : ℕ)
    (p : DT) (hne : periodOf s term ≠ []) :
    ∃ i, i < (periodOf s term).length ∧
      resolvedPrice (periodOf s term) p = ((periodOf s term).getD i dumQ).2 ∧
      (∀ j, j < (periodOf s term).length →
        Nat.dist (((periodOf s term).getD i dumQ).1).toMin p.toMin ≤
          Nat.dist (((periodOf s term).getD j dumQ).1).toMin p.toMin) ∧
      (∀ j, j < i →
        Nat.dist (((periodOf s term).getD i dumQ).1).toMin p.toMin <
          Nat.dist (((periodOf s term).getD j dumQ).1).toMin p.toMin) :=
  resolvedPrice_first_nearest (periodOf s term) p hne

/-- C4 counterexample: on `wSeries4` (term 1, payment day 1) the
simulation's first purchase date is 2027-12-01; the simulators resolve it
against the filtered period and use price 99, while the spec's
`nearestPrice` over the whole series - the sample with the minimum
absolute timestamp difference, before or after - yields price 10 (the
2027-12-14 23:00 sample, 13.96 days away versus 45 days). -/
theorem c4_counterexample :
    (paymentDatesOf wSeries4 1 1).getD 0 dumDT = ⟨2027, 12, 1, 0⟩ ∧
    resolvedPrice (periodOf wSeries4 1) ⟨2027, 12, 1, 0⟩ = 99 ∧
    nearestPrice_spec wSeries4 ⟨2027, 12, 1, 0⟩ = 10 ∧
    (99 : ℚ) ≠ 10 := by
  refine ⟨?_, ?_, ?_, by norm_num⟩
  · norm_num [paymentDatesOf, monthEnds, windowStartOf, wSeries4, seriesMax,
      DT.subMonths, monthIdxOf, daysInMonth, isLeap, clampToPaymentDay,
      DT.toMin, daysBeforeYear, daysBeforeMonth, List.range_succ,
      List.map_append, List.sum_append, List.map_cons, List.sum_cons,
      List.map_nil, List.sum_nil, dumDT]
  · norm_num [resolvedPrice, periodOf, windowStartOf, wSeries4, seriesMax,
      DT.subMonths, monthIdxOf, daysInMonth, isLeap, List.filter,
      firstMinIdx, List.min?, List.findIdx, List.findIdx.go, Nat.dist,
      DT.toMin, daysBeforeYear, daysBeforeMonth, List.range_succ,
      List.map_append, List.sum_append, List.map_cons, List.sum_cons,
      List.map_nil, List.sum_nil, dumQ, dumDT]
  · norm_num [nearestPrice_spec, resolvedPrice, wSeries4, firstMinIdx,
      List.min?, List.findIdx, List.findIdx.go, Nat.dist, DT.toMin,
      daysBeforeYear, daysBeforeMonth, daysInMonth, isLeap, List.range_succ,
      List.map_append, List.sum_append, List.map_cons, List.sum_cons,
      List.map_nil, List.sum_nil, dumQ, dumDT]

/-- Witness for C4 at a concrete filtered period and purchase date. -/
theorem c4_purchase_price_nearest_in_window_witness :
    periodOf wSeries2 1 ≠ [] ∧
    (∃ i, i < (periodOf wSeries2 1).length ∧
      resolvedPrice (periodOf wSeries2 1) ⟨2024, 1, 31, 0⟩ =
        ((periodOf wSeries2 1).getD i dumQ).2 ∧
      (∀ j, j < (periodOf wSeries2 1).length →
        Nat.dist (((periodOf wSeries2 1).getD i dumQ).1).toMin
            (DT.toMin ⟨2024, 1, 31, 0⟩) ≤
          Nat.dist (((periodOf wSeries2 1).getD j dumQ).1).toMin
            (DT.toMin ⟨2024, 1, 31, 0⟩)) ∧
      (∀ j, j < i →
        Nat.dist (((periodOf wSeries2 1).getD i dumQ).1).toMin
            (DT.toMin ⟨2024, 1, 31, 0⟩) <
          Nat.dist (((periodOf wSeries2 1).getD j dumQ).1).toMin
            (DT.toMin ⟨2024, 1, 31, 0⟩))) := by
  have hne : periodOf wSeries2 1 ≠ [] := by
    norm_num [periodOf, windowStartOf, wSeries2, seriesMax, DT.subMonths,
      monthIdxOf, daysInMonth, isLeap, List.filter, DT.toMin, daysBeforeYear,
      daysBeforeMonth, List.range_succ, List.map_append, List.sum_append,
      List.map_cons, List.sum_cons, List.map_nil, List.sum_nil]
    exact List.cons_ne_nil _ _
  exact ⟨hne, c4_purchase_price_nearest_in_window wSeries2 1 ⟨2024, 1, 31, 0⟩ hne⟩

/-- C7 (amended): neither simulator checks the window start against the
series' earliest timestamp; when the window start strictly precedes every
series timestamp (so in particular the earliest), both simulators filter
the series (keeping every sample), proceed, and return a result instead
of failing with an InsufficientHistory error. -/
theorem c7_no_insufficient_history_check (s : List (DT × ℚ))
    (principal apr btc_pct : ℚ) (term payment_day : ℕ)
    (hne : s ≠ []) (hprin : 0 < principal) (hapr : 0 < apr)
    (hpct : 0 < btc_pct) (hterm : 0 < term)
    (hprices : ∀ q ∈ s, 0 < q.2)
    (hwin : ∀ q ∈ s, (windowStartOf s term).toMin < q.1.toMin) :
    (∃ r, analyze_btc_enhanced_loan s principal apr term btc_pct = .ok r) ∧
    (∃ r, analyze_auto_loan s principal apr term btc_pct payment_day =
      .ok r) := by
  have hwin2 : ∀ q ∈ s, (windowStartOf s term).toMin ≤ q.1.toMin :=
    fun q hq => le_of_lt (hwin q hq)
  have hnz : ∀ q ∈ s, q.2 ≠ 0 := fun q hq => ne_of_gt (hprices q hq)
  have hdenpos := amort_den_pos apr term hapr hterm
  have hden : (1 + apr / 12 / 100) ^ term - 1 ≠ 0 := ne_of_gt hdenpos
  have hr0 : (0 : ℚ) < apr / 12 / 100 :=
    div_pos (div_pos hapr (by norm_num : (0:ℚ) < 12))
      (by norm_num : (0:ℚ) < 100)
  have hpow : (0 : ℚ) < (1 + apr / 12 / 100) ^ term :=
    pow_pos (by linarith) term
  have hpay : (0 : ℚ) < principal * ((apr / 12 / 100) *
      (1 + apr / 12 / 100) ^ term) / ((1 + apr / 12 / 100) ^ term - 1) :=
    div_pos (mul_pos hprin (mul_pos hr0 hpow)) hdenpos
  have hamt : (0 : ℚ) < principal * ((apr / 12 / 100) *
      (1 + apr / 12 / 100) ^ term) / ((1 + apr / 12 / 100) ^ term - 1) *
      (btc_pct / 100) :=
    mul_pos hpay (div_pos hpct (by norm_num : (0:ℚ) < 100))
  have htermq : (0 : ℚ) < (term : ℚ) := by
    exact_mod_cast hterm
  obtain ⟨r1, hok1, -, -⟩ :=
    analyze_btc_ok s principal apr btc_pct term hne hwin2 hnz hden
  obtain ⟨hauto, -⟩ :=
    analyze_auto_run s principal apr btc_pct term payment_day hne hwin2 hnz hden
  exact ⟨⟨r1, hok1⟩, hauto (ne_of_gt (mul_pos hamt htermq))⟩

/-- C7 counterexample: on `wSeries2` with term 1 the window start
2024-01-15 strictly precedes both series timestamps (the earliest is
2024-01-20), yet both simulators return a result - there is no
InsufficientHistory failure. -/
theorem c7_counterexample :
    (windowStartOf wSeries2 1).toMin < ((wSeries2.getD 0 dumQ).1).toMin ∧
    (windowStartOf wSeries2 1).toMin < ((wSeries2.getD 1 dumQ).1).toMin ∧
    exceptIsOk (analyze_btc_enhanced_loan wSeries2 1000 5 1 10) = true ∧
    exceptIsOk (analyze_auto_loan wSeries2 1000 5 1 10 1) = true := by
  have hne : wSeries2 ≠ [] := by simp [wSeries2]
  have hwin2 : ∀ q ∈ wSeries2, (windowStartOf wSeries2 1).toMin ≤ q.1.toMin := by
    decide
  have hnz : ∀ q ∈ wSeries2, q.2 ≠ 0 := by norm_num [wSeries2]
  have hden : (1 + (5:ℚ) / 12 / 100) ^ 1 - 1 ≠ 0 := by norm_num
  obtain ⟨r1, hr1, -, -⟩ := analyze_btc_ok wSeries2 1000 5 10 1 hne hwin2 hnz hden
  obtain ⟨hauto, -⟩ :=
    analyze_auto_run wSeries2 1000 5 10 1 1 hne hwin2 hnz hden
  obtain ⟨r2, hr2⟩ := hauto (by norm_num)
  refine ⟨by decide, by decide, ?_, ?_⟩
  · rw [hr1]
    rfl
  · rw [hr2]
    rfl

/-- Witness for C7 (amended) at the concrete series `wSeries2`. -/
theorem c7_no_insufficient_history_check_witness :
    (wSeries2 ≠ [] ∧ (0:ℚ) < 1000 ∧ (0:ℚ) < 5 ∧ (0:ℚ) < 10 ∧ 0 < 1 ∧
      (∀ q ∈ wSeries2, 0 < q.2) ∧
      (∀ q ∈ wSeries2, (windowStartOf wSeries2 1).toMin < q.1.toMin)) ∧
    ((∃ r, analyze_btc_enhanced_loan wSeries2 1000 5 1 10 = .ok r) ∧
      (∃ r, analyze_auto_loan wSeries2 1000 5 1 10 1 = .ok r)) := by
  have hne : wSeries2 ≠ [] := by simp [wSeries2]
  have hprices : ∀ q ∈ wSeries2, (0:ℚ) < q.2 := by norm_num [wSeries2]
  have hwin : ∀ q ∈ wSeries2, (windowStartOf wSeries2 1).toMin < q.1.toMin := by
    decide
  refine ⟨⟨hne, by norm_num, by norm_num, by norm_num, by norm_num, hprices,
    hwin⟩, ?_⟩
  exact c7_no_insufficient_history_check wSeries2 1000 5 10 1 1 hne
    (by norm_num) (by norm_num) (by norm_num) (by norm_num) hprices hwin

/-- C8 (amended): there is no InvalidPrice guard; the `allocation/price`
division is not protected by any check, and it succeeds only because of
the data: whenever every series price is nonzero the simulation completes,
while a purchase date resolving to price 0 reaches the division and the
run fails with the raw division-by-zero error (see the counterexample)
rather than an InvalidPrice rejection. -/
theorem c8_no_invalid_price_guard (s : List (DT × ℚ))
    (principal apr btc_pct : ℚ) (term : ℕ)
    (hne : s ≠ [])
    (hwin : ∀ q ∈ s, (windowStartOf s term).toMin ≤ q.1.toMin)
    (hnz : ∀ q ∈ s, q.2 ≠ 0)
    (hden : (1 + apr / 12 / 100) ^ term - 1 ≠ 0) :
    ∃ r, analyze_btc_enhanced_loan s principal apr term btc_pct = .ok r := by
  obtain ⟨r, hok, -, -⟩ := analyze_btc_ok s principal apr btc_pct term hne
    hwin hnz hden
  exact ⟨r, hok⟩

/-- C8 counterexample: on `wSeries3` the single purchase date 2024-01-31
resolves (within the filtered period) to the 2024-02-29 sample whose
price is 0; the simulator does not reject it as InvalidPrice - the
division is reached and the run fails with a division by zero. -/
theorem c8_counterexample :
    resolvedPrice (periodOf wSeries3 1)
      ((monthEnds (windowStartOf wSeries3 1) 1).getD 0 dumDT) = 0 ∧
    analyze_btc_enhanced_loan wSeries3 1000 5 1 10 = .error .divByZero := by
  constructor
  · norm_num [resolvedPrice, periodOf, windowStartOf, wSeries3, seriesMax,
      DT.subMonths, monthIdxOf, daysInMonth, isLeap, List.filter,
      monthEnds, firstMinIdx, List.min?, List.findIdx, List.findIdx.go,
      Nat.dist, DT.toMin, daysBeforeYear, daysBeforeMonth, List.range_succ,
      List.map_append, List.sum_append, List.map_cons, List.sum_cons,
      List.map_nil, List.sum_nil, dumQ, dumDT]
  · norm_num [analyze_btc_enhanced_loan, calculate_loan_metrics, buyLoop,
      resolvedPrice, periodOf, windowStartOf, wSeries3, seriesMax,
      DT.subMonths, monthIdxOf, daysInMonth, isLeap, List.filter,
      monthEnds, firstMinIdx, List.min?, List.findIdx, List.findIdx.go,
      Nat.dist, DT.toMin, daysBeforeYear, daysBeforeMonth, List.range_succ,
      List.map_append, List.sum_append, List.map_cons, List.sum_cons,
      List.map_nil, List.sum_nil, List.getLast?, dumQ, dumDT]

/-- Witness for C8 (amended) at the concrete series `wSeries2`. -/
theorem c8_no_invalid_price_guard_witness :
    (wSeries2 ≠ [] ∧
      (∀ q ∈ wSeries2, (windowStartOf wSeries2 1).toMin ≤ q.1.toMin) ∧
      (∀ q ∈ wSeries2, q.2 ≠ 0) ∧
      (1 + (5:ℚ) / 12 / 100) ^ 1 - 1 ≠ 0) ∧
    (∃ r, analyze_btc_enhanced_loan wSeries2 1000 5 1 10 = .ok r) := by
  have hne : wSeries2 ≠ [] := by simp [wSeries2]
  have hwin2 : ∀ q ∈ wSeries2, (windowStartOf wSeries2 1).toMin ≤ q.1.toMin := by
    decide
  have hnz : ∀ q ∈ wSeries2, q.2 ≠ 0 := by norm_num [wSeries2]
  have hden : (1 + (5:ℚ) / 12 / 100) ^ 1 - 1 ≠ 0 := by norm_num
  exact ⟨⟨hne, hwin2, hnz, hden⟩,
    c8_no_invalid_price_guard wSeries2 1000 5 10 1 hne hwin2 hnz hden⟩

/-- C9 (amended): with a zero monthly allocation the btc_loan simulator
returns a result with accumulated quantity 0 and invested total 0, and
its guarded roi computation reports the sentinel value 0 (not an
undefined/flagged value); the auto_loan simulator computes the roi
percentage with an unguarded division by the invested total and therefore
fails with a division by zero. -/
theorem c9_zero_allocation_behavior (s : List (DT × ℚ)) (principal apr : ℚ)
    (term payment_day : ℕ)
    (hne : s ≠ [])
    (hwin : ∀ q ∈ s, (windowStartOf s term).toMin ≤ q.1.toMin)
    (hnz : ∀ q ∈ s, q.2 ≠ 0)
    (hden : (1 + apr / 12 / 100) ^ term - 1 ≠ 0) :
    (∃ r, analyze_btc_enhanced_loan s principal apr term 0 = .ok r ∧
      r.btc_accumulated = 0 ∧ r.total_btc_investment = 0 ∧
      r.roi_percentage = 0) ∧
    analyze_auto_loan s principal apr term 0 payment_day =
      .error .divByZero := by
  obtain ⟨r, hok, -, hzero⟩ :=
    analyze_btc_ok s principal apr 0 term hne hwin hnz hden
  obtain ⟨hacc, hroi, hinv⟩ := hzero rfl
  obtain ⟨-, hzeroAuto⟩ :=
    analyze_auto_run s principal apr 0 term payment_day hne hwin hnz hden
  exact ⟨⟨r, hok, hacc, hinv, hroi⟩, hzeroAuto (by norm_num)⟩

/-- C9 counterexample: with allocation percentage 0 on the concrete series
`wSeries2`, the auto_loan simulation does not report a flagged roi - the
0/0 roi division makes the computation fail with a division by zero. -/
theorem c9_counterexample :
    analyze_auto_loan wSeries2 1000 5 1 0 1 = .error .divByZero := by
  have hne : wSeries2 ≠ [] := by simp [wSeries2]
  have hwin2 : ∀ q ∈ wSeries2, (windowStartOf wSeries2 1).toMin ≤ q.1.toMin := by
    decide
  have hnz : ∀ q ∈ wSeries2, q.2 ≠ 0 := by norm_num [wSeries2]
  have hden : (1 + (5:ℚ) / 12 / 100) ^ 1 - 1 ≠ 0 := by norm_num
  obtain ⟨-, hzeroAuto⟩ := analyze_auto_run wSeries2 1000 5 0 1 1 hne hwin2 hnz hden
  exact hzeroAuto (by norm_num)

/-- Witness for C9 (amended) at the concrete series `wSeries2`. -/
theorem c9_zero_allocation_behavior_witness :
    (wSeries2 ≠ [] ∧
      (∀ q ∈ wSeries2, (windowStartOf wSeries2 1).toMin ≤ q.1.toMin) ∧
      (∀ q ∈ wSeries2, q.2 ≠ 0) ∧
      (1 + (5:ℚ) / 12 / 100) ^ 1 - 1 ≠ 0) ∧
    ((∃ r, analyze_btc_enhanced_loan wSeries2 1000 5 1 0 = .ok r ∧
      r.btc_accumulated = 0 ∧ r.total_btc_investment = 0 ∧
      r.roi_percentage = 0) ∧
    analyze_auto_loan wSeries2 1000 5 1 0 1 = .error .divByZero) := by
  have hne : wSeries2 ≠ [] := by simp [wSeries2]
  have hwin2 : ∀ q ∈ wSeries2, (windowStartOf wSeries2 1).toMin ≤ q.1.toMin := by
    decide
  have hnz : ∀ q ∈ wSeries2, q.2 ≠ 0 := by norm_num [wSeries2]
  have hden : (1 + (5:ℚ) / 12 / 100) ^ 1 - 1 ≠ 0 := by norm_num
  exact ⟨⟨hne, hwin2, hnz, hden⟩,
    c9_zero_allocation_behavior wSeries2 1000 5 1 1 hne hwin2 hnz hden⟩
